import Mathlib

/-!
Shallow embedding of `src/models.py` (CEE 290 Models): the interception
storage model, its fixed-step (RK4) and adaptive (RKF45) ensemble cost
drivers, and the shared sum-of-squared-residuals primitive `ssr`.

Conventions of the embedding:
* numpy floating-point numbers are modelled by `ℚ` (real arithmetic);
* a non-finite float (`inf` or `nan`, as produced by numpy division by
  zero) is modelled by `none : Option ℚ`; every lifted arithmetic
  operation propagates `none`, matching numpy propagation of non-finite
  values.  Ordered comparison against `none` is `false`, matching the
  NaN comparison semantics (the only non-finite values reachable in the
  theorems below come from division by a zero capacity);
* a Python exception is modelled by `Except.error`; numpy operations
  that return values (even warnings plus `inf`/`nan`) are `Except.ok`;
* `rungekutta.py` (imported as `rk` by `models.py`) is not among the
  source files; its two entry points `rk4` and `rkf45` are modelled from
  the spec (see their doc comments).
-/

namespace Models

/-- Lifted addition on `Option ℚ`; `none` (non-finite) propagates. -/
def oadd : Option ℚ → Option ℚ → Option ℚ
  | some a, some b => some (a + b)
  | _, _ => none

/-- Lifted subtraction on `Option ℚ`; `none` propagates. -/
def osub : Option ℚ → Option ℚ → Option ℚ
  | some a, some b => some (a - b)
  | _, _ => none

/-- Lifted multiplication on `Option ℚ`; `none` propagates. -/
def omul : Option ℚ → Option ℚ → Option ℚ
  | some a, some b => some (a * b)
  | _, _ => none

/-- Lifted division on `Option ℚ`.  Division by zero yields `none`:
numpy emits a warning and produces `inf`/`nan` (a non-finite value),
it does not raise. -/
def odiv : Option ℚ → Option ℚ → Option ℚ
  | some a, some b => if b = 0 then none else some (a / b)
  | _, _ => none

/-- `np.maximum (·, 0)` lifted to `Option ℚ`: `maximum` of a non-finite
value stays non-finite. -/
def omax0 : Option ℚ → Option ℚ
  | some a => some (max a 0)
  | none => none

/-- `np.abs` lifted to `Option ℚ`. -/
def oabs : Option ℚ → Option ℚ
  | some a => some |a|
  | none => none

/-- The comparison `x > c` on a numpy scalar: `nan > c` is `false`. -/
def ogtQ : Option ℚ → ℚ → Bool
  | some a, c => decide (c < a)
  | none, _ => false

@[simp] theorem oadd_some (a b : ℚ) : oadd (some a) (some b) = some (a + b) := rfl
@[simp] theorem osub_some (a b : ℚ) : osub (some a) (some b) = some (a - b) := rfl
@[simp] theorem omul_some (a b : ℚ) : omul (some a) (some b) = some (a * b) := rfl
@[simp] theorem odiv_some (a b : ℚ) :
    odiv (some a) (some b) = if b = 0 then none else some (a / b) := rfl
@[simp] theorem omax0_some (a : ℚ) : omax0 (some a) = some (max a 0) := rfl
@[simp] theorem ogtQ_some (a c : ℚ) : ogtQ (some a) c = decide (c < a) := rfl
@[simp] theorem oadd_none_right (x : Option ℚ) : oadd x none = none := by cases x <;> rfl
@[simp] theorem oadd_none_left (x : Option ℚ) : oadd none x = none := rfl
@[simp] theorem osub_none_right (x : Option ℚ) : osub x none = none := by cases x <;> rfl
@[simp] theorem omul_none_right (x : Option ℚ) : omul x none = none := by cases x <;> rfl
@[simp] theorem odiv_none_left (x : Option ℚ) : odiv none x = none := rfl

/-- `np.interp t xp fp` on finite data, the points given as pairs
`(x, y)` with `xp` increasing: edge-clamped piecewise-linear
interpolation.  numpy raises on empty `xp`; the `[]` case is junk and
is never reached by the theorems below. -/
def npInterp (t : ℚ) : List (ℚ × ℚ) → ℚ
  | [] => 0
  | [(_, y)] => y
  | (x1, y1) :: (x2, y2) :: rest =>
      if t ≤ x1 then y1
      else if t ≤ x2 then y1 + (y2 - y1) * (t - x1) / (x2 - x1)
      else npInterp t ((x2, y2) :: rest)

/-- `np.interp` with possibly non-finite ordinate values (the resampler
instantiation in `interceptionModel_CF`, where the adaptive trajectory
may contain `inf`/`nan`); the abscissae (times) stay finite. -/
def npInterpO (t : ℚ) : List (ℚ × Option ℚ) → Option ℚ
  | [] => none
  | [(_, y)] => y
  | (x1, y1) :: (x2, y2) :: rest =>
      if t ≤ x1 then y1
      else if t ≤ x2 then oadd y1 (omul (osub y2 y1) (some ((t - x1) / (x2 - x1))))
      else npInterpO t ((x2, y2) :: rest)

/-- `np.maximum (np.interp t T V, 0)`: the forcing value fed into the
dynamics (lines 97 and 99 of `models.py`). -/
def forcingAt (t : ℚ) (T V : List ℚ) : ℚ :=
  max (npInterp t (T.zip V)) 0

/-! ## The `ssr` cost primitive (lines 21-24 of `models.py`)

`ssr(p, d)` computes `res = p - d` and `np.sum(res*res, axis=1)`.
We model numpy arrays of rank one and two, with numpy broadcasting for
the subtraction; `axis=1` reduction on a rank-one array raises. -/

/-- A numpy array of rank one or two over (possibly non-finite)
floating-point entries. -/
inductive NDArr where
  | vec : List (Option ℚ) → NDArr
  | mat : List (List (Option ℚ)) → NDArr
deriving DecidableEq

deriving instance DecidableEq for Except

/-- numpy error message for incompatible broadcast shapes. -/
def bcastErr : String := "operands could not be broadcast together"

/-- numpy error message for a reduction over a missing axis. -/
def axisErr : String := "axis 1 is out of bounds for array of dimension 1"

/-- numpy error message for the truth value of a multi-element array. -/
def truthErr : String := "truth value of a multi-element array is ambiguous"

/-- Broadcast of two axis lengths: equal, or either one is `1`. -/
def bLen (n m : Nat) : Option Nat :=
  if n = m then some n else if n = 1 then some m else if m = 1 then some n else none

/-- Stretch a length-1 axis to length `n` (numpy broadcasting). -/
def expandList (n : Nat) (xs : List (Option ℚ)) : List (Option ℚ) :=
  if xs.length = 1 then List.replicate n (xs.headD none) else xs

/-- Stretch a length-1 row axis to `n` rows (numpy broadcasting). -/
def expandRows (n : Nat) (A : List (List (Option ℚ))) : List (List (Option ℚ)) :=
  if A.length = 1 then List.replicate n (A.headD []) else A

/-- The column count of a rank-two array (numpy arrays are
rectangular; rectangularity is a hypothesis of the theorems). -/
def matCols (A : List (List (Option ℚ))) : Nat := (A.headD []).length

/-- Broadcasting elementwise subtraction of two rank-two arrays. -/
def subMM (A B : List (List (Option ℚ))) :
    Except String (List (List (Option ℚ))) :=
  match bLen A.length B.length, bLen (matCols A) (matCols B) with
  | some n, some m =>
      .ok (List.zipWith (fun r s => List.zipWith osub (expandList m r) (expandList m s))
        (expandRows n A) (expandRows n B))
  | _, _ => .error bcastErr

/-- Broadcasting elementwise subtraction of two rank-one arrays. -/
def subVV (xs ys : List (Option ℚ)) : Except String (List (Option ℚ)) :=
  match bLen xs.length ys.length with
  | some n => .ok (List.zipWith osub (expandList n xs) (expandList n ys))
  | none => .error bcastErr

/-- `p - d` with numpy rank alignment: a rank-one operand meeting a
rank-two operand is promoted to shape `1 × M`. -/
def ndSub : NDArr → NDArr → Except String NDArr
  | .vec xs, .vec ys => .vec <$> subVV xs ys
  | .vec xs, .mat B => .mat <$> subMM [xs] B
  | .mat A, .vec ys => .mat <$> subMM A [ys]
  | .mat A, .mat B => .mat <$> subMM A B

/-- `np.multiply (res, res)`: elementwise square, shape preserved. -/
def ndSquare : NDArr → NDArr
  | .vec xs => .vec (xs.map fun x => omul x x)
  | .mat A => .mat (A.map fun r => r.map fun x => omul x x)

/-- `np.sum (·, axis=1)`: row sums of a rank-two array; raises on a
rank-one array. -/
def sumAxis1 : NDArr → Except String NDArr
  | .vec _ => .error axisErr
  | .mat A => .ok (.vec (A.map fun r => r.foldl oadd (some 0)))

/-- `ssr(p, d)` from `models.py` lines 21-24: residuals `p - d` and the
per-row sum of squared residuals. -/
def ssr (p d : NDArr) : Except String (NDArr × NDArr) := do
  let res ← ndSub p d
  let s ← sumAxis1 (ndSquare res)
  return (res, s)

/-- Embed a finite rank-one array. -/
def vecQ (xs : List ℚ) : NDArr := .vec (xs.map some)

/-- Embed a finite rank-two array. -/
def matQ (A : List (List ℚ)) : NDArr := .mat (A.map fun r => r.map some)

/-- Row length of a finite matrix (its first row's length). -/
def rowLen (A : List (List ℚ)) : Nat := (A.headD []).length

/-- Rectangularity: every row has the common row length. -/
def Rect (A : List (List ℚ)) : Prop := ∀ r ∈ A, r.length = rowLen A

/-! ## The interception model right-hand side (lines 85-113)

`interceptionModel(t,S,T,Pr,E0,a,b,c,d)` is one Python function applied
by the two drivers at two different array shapes: scalar state
(`interceptionModel_CF`, one member at a time) and vector state of
ensemble width `N` (`interceptCostRK4`).  We embed the two
instantiations as `interceptionModel` and `interceptionModelV`; the
parameter mapping and the body are shared through
`interceptionModelPhys`. -/

/-- The body of the right-hand side after the parameter mapping, at
scalar state: clamp the state, interpolate and clamp the forcing,
interception `I`, threshold drainage `D`, evaporation `E`, return
`I - D - E` (lines 95-113). -/
def interceptionModelPhys (t : ℚ) (S : Option ℚ) (T Pr E0 : List ℚ)
    (am bm cm dm : ℚ) : Option ℚ :=
  let S' := omax0 S
  let Pr_int := forcingAt t T Pr
  let E0_int := forcingAt t T E0
  let I := some (am * Pr_int)
  let D := if ogtQ S' cm then omul (some bm) (osub S' (some cm)) else some 0
  let E := omul (some (dm * E0_int)) (odiv S' (some cm))
  osub (osub I D) E

/-- `interceptionModel` at scalar state (the adaptive path): map the
raw parameters to feasible space (lines 91-94) and evaluate the body.
No input makes this instantiation raise. -/
def interceptionModel (t : ℚ) (S : Option ℚ) (T Pr E0 : List ℚ)
    (a b c d : ℚ) : Option ℚ :=
  let am := a
  let bm := 999 * b + 1
  let cm := 5 * c
  let dm := 3 * d
  interceptionModelPhys t S T Pr E0 am bm cm dm

/-- The truth value of a numpy boolean array (`if S>cm` with a vector
`S`): a one-element array yields its element; any other width raises
the ambiguity error. -/
def npTruth : List Bool → Except String Bool
  | [b] => .ok b
  | _ => .error truthErr

/-- `interceptionModel` at vector state of ensemble width `N` (the
fixed-step path): the parameters are the per-member columns, the
forcing interpolation is shared, and the drainage conditional applies
the scalar Python truth test to the elementwise comparison `S > cm`
(line 104) — well-defined only at width one. -/
def interceptionModelV (t : ℚ) (S : List (Option ℚ)) (T Pr E0 : List ℚ)
    (a b c d : List ℚ) : Except String (List (Option ℚ)) := do
  let am := a
  let bm := b.map fun x => 999 * x + 1
  let cm := c.map fun x => 5 * x
  let dm := d.map fun x => 3 * x
  let S' := S.map omax0
  let Pr_int := forcingAt t T Pr
  let E0_int := forcingAt t T E0
  let I := am.map fun x => x * Pr_int
  let cond := List.zipWith (fun s cap => ogtQ s cap) S' cm
  let drain ← npTruth cond
  let D := if drain then
      List.zipWith (fun bi sc => omul (some bi) sc) bm
        (List.zipWith (fun s cap => osub s (some cap)) S' cm)
    else List.replicate S'.length (some 0)
  let E := List.zipWith (fun di q => omul (some (di * E0_int)) q) dm
      (List.zipWith (fun s cap => odiv s (some cap)) S' cm)
  return List.zipWith osub (List.zipWith osub (I.map some) D) E

/-! ## The fixed-step driver `interceptCostRK4` (lines 135-166) -/

/-- Elementwise vector addition (numpy `+` at equal shapes). -/
def vadd (x y : List (Option ℚ)) : List (Option ℚ) := List.zipWith oadd x y

/-- Scalar times vector (numpy `*` broadcast of a scalar). -/
def vscale (q : ℚ) (x : List (Option ℚ)) : List (Option ℚ) :=
  x.map fun v => omul (some q) v

/-- Modelled from the spec: `rungekutta.rk4`, imported by `models.py`
as `rk.rk4` from a module that is not among the source files.  Per
section 4.4 it is the classical 4-stage 4th-order explicit Runge-Kutta
update, all ensemble members advanced in one vectorized evaluation per
stage; the model-function arguments are captured in the closure `f`.
An exception raised by the model function propagates. -/
def rk4 (t : ℚ) (S : List (Option ℚ)) (dt : ℚ)
    (f : ℚ → List (Option ℚ) → Except String (List (Option ℚ))) :
    Except String (List (Option ℚ)) := do
  let k1 ← f t S
  let k2 ← f (t + dt / 2) (vadd S (vscale (dt / 2) k1))
  let k3 ← f (t + dt / 2) (vadd S (vscale (dt / 2) k2))
  let k4 ← f (t + dt) (vadd S (vscale dt k3))
  return vadd S (vscale (dt / 6) (vadd k1 (vadd (vscale 2 k2) (vadd (vscale 2 k3) k4))))

/-- The row-building loop of `interceptCostRK4` (lines 158-164): one
`rk4` step per remaining observation time, each step seeding the next
row; returns all rows including the seed row. -/
def rk4Scan (f : ℚ → List (Option ℚ) → Except String (List (Option ℚ)))
    (dt : ℚ) : List (Option ℚ) → List ℚ →
    Except String (List (List (Option ℚ)))
  | s0, [] => .ok [s0]
  | s0, t :: ts => do
      let s1 ← rk4 t s0 dt f
      let rest ← rk4Scan f dt s1 ts
      return s0 :: rest

/-- numpy transpose of a rectangular rank-two array. -/
def transposeM (A : List (List (Option ℚ))) : List (List (Option ℚ)) :=
  (List.range (matCols A)).map fun j => A.map fun r => r.getD j none

/-- `interceptCostRK4(Pars, Args)` (lines 135-166).  `Pars` is the
`N × 4` raw-parameter ensemble; the observation matrix is passed as its
four columns `Obs[:,0] .. Obs[:,3]`, and `dt = Args[1]`.  The first row
of `simStor` is seeded with `obsStor[0]`, one RK4 step is taken per
observation time except the last (the `j >= obsTime.size` break), and
the result is `[simStor.T, ssr(simStor.T, obsStor)]`. -/
def interceptCostRK4 (Pars : List (List ℚ))
    (obsTime obsStor obsPrec obsEvap : List ℚ) (dt : ℚ) :
    Except String (List (List (Option ℚ)) × (NDArr × NDArr)) := do
  let a := Pars.map fun r => r.getD 0 0
  let b := Pars.map fun r => r.getD 1 0
  let c := Pars.map fun r => r.getD 2 0
  let d := Pars.map fun r => r.getD 3 0
  let mf := fun t S => interceptionModelV t S obsTime obsPrec obsEvap a b c d
  let s0 := List.replicate a.length (some (obsStor.headD 0))
  let simStor ← rk4Scan mf dt s0 obsTime.dropLast
  let simStorT := transposeM simStor
  let cost ← ssr (.mat simStorT) (.vec (obsStor.map some))
  return (simStorT, cost)

/-! ## The adaptive driver `interceptionModel_CF` (lines 168-207) -/

/-- Internal error tolerance of the modelled adaptive integrator. -/
def rkfTol : ℚ := 1 / 1000000

/-- Lower bound on the trial step of the modelled adaptive integrator. -/
def rkfMinStep : ℚ := 1 / 1000000

/-- Upper bound on the trial step of the modelled adaptive integrator. -/
def rkfMaxStep : ℚ := 10

/-- Modelled from the spec: `rungekutta.rkf45`, imported by `models.py`
as `rk.rkf45` from a module that is not among the source files.  Per
section 4.5 it advances one scalar trajectory with the embedded
Runge-Kutta-Fehlberg 4(5) pair: one set of stage evaluations yields a
4th- and a 5th-order estimate; if their difference exceeds the
tolerance the step is rejected (time and state unchanged, trial step
halved, floored at the minimum), otherwise it is accepted (the
higher-order state is kept, the trial step doubled, capped at the
maximum).  Returns `(dt, t, s)` as unpacked on line 199. -/
def rkf45 (t : ℚ) (s : Option ℚ) (dt : ℚ) (f : ℚ → Option ℚ → Option ℚ) :
    ℚ × ℚ × Option ℚ :=
  let k1 := omul (some dt) (f t s)
  let k2 := omul (some dt) (f (t + dt / 4) (oadd s (omul (some (1/4)) k1)))
  let k3 := omul (some dt) (f (t + 3*dt/8)
      (oadd s (oadd (omul (some (3/32)) k1) (omul (some (9/32)) k2))))
  let k4 := omul (some dt) (f (t + 12*dt/13)
      (oadd s (oadd (omul (some (1932/2197)) k1)
        (oadd (omul (some (-7200/2197)) k2) (omul (some (7296/2197)) k3)))))
  let k5 := omul (some dt) (f (t + dt)
      (oadd s (oadd (omul (some (439/216)) k1)
        (oadd (omul (some (-8 : ℚ)) k2)
          (oadd (omul (some (3680/513)) k3) (omul (some (-845/4104)) k4))))))
  let k6 := omul (some dt) (f (t + dt/2)
      (oadd s (oadd (omul (some (-8/27 : ℚ)) k1)
        (oadd (omul (some (2 : ℚ)) k2)
          (oadd (omul (some (-3544/2565)) k3)
            (oadd (omul (some (1859/4104)) k4) (omul (some (-11/40)) k5)))))))
  let s4 := oadd s (oadd (omul (some (25/216)) k1)
      (oadd (omul (some (1408/2565)) k3)
        (oadd (omul (some (2197/4104)) k4) (omul (some (-1/5 : ℚ)) k5))))
  let s5 := oadd s (oadd (omul (some (16/135)) k1)
      (oadd (omul (some (6656/12825)) k3)
        (oadd (omul (some (28561/56430)) k4)
          (oadd (omul (some (-9/50 : ℚ)) k5) (omul (some (2/55)) k6)))))
  let err := oabs (osub s5 s4)
  let reject := match err with
    | some e => decide (rkfTol < e)
    | none => false
  if reject then (max (dt / 2) rkfMinStep, t, s)
  else (min (2 * dt) rkfMaxStep, t + dt, s5)

/-- The per-member `while obsTime[-1] >= t` loop of
`interceptionModel_CF` (lines 198-200): every `rkf45` call appends one
`(t, s)` row to the trajectory.  The source loop has no termination
guarantee of its own, so the embedding carries explicit fuel; the
structural theorems below hold for every fuel. -/
def adaptLoop (f : ℚ → Option ℚ → Option ℚ) (tEnd : ℚ) :
    Nat → ℚ → Option ℚ → ℚ → List (ℚ × Option ℚ)
  | 0, _, _, _ => []
  | fuel + 1, t, s, dt =>
      if tEnd ≥ t then
        let r := rkf45 t s dt f
        (r.2.1, r.2.2) :: adaptLoop f tEnd fuel r.2.1 r.2.2 r.1
      else []

/-- Column assignment `obsSims[:,i] = col` on a rank-two array. -/
def setCol (j : Nat) (col : List (Option ℚ)) (A : List (List (Option ℚ))) :
    List (List (Option ℚ)) :=
  List.zipWith (fun row v => row.set j v) A col

/-- The member loop of `interceptionModel_CF` (lines 188-205): for each
index, simulate the member, write its resampled trajectory into column
`i` of `obsSims`, and append the raw trajectory to `sims`. -/
def cfLoop (simFor : Nat → List (ℚ × Option ℚ))
    (colFor : Nat → List (Option ℚ)) :
    List Nat → List (List (Option ℚ)) → List (List (ℚ × Option ℚ)) →
    List (List (Option ℚ)) × List (List (ℚ × Option ℚ))
  | [], obsSims, sims => (obsSims, sims)
  | i :: is, obsSims, sims =>
      cfLoop simFor colFor is (setCol i (colFor i) obsSims) (sims ++ [simFor i])

/-- `interceptionModel_CF(Pars, Args)` (lines 168-207).  `Pars` is the
`N × 4` raw-parameter ensemble, the observation matrix is passed as its
four columns, and `dt0 = Args[1]` (re-read at the top of each member
iteration).  The member loop runs over `range(A.size - 1)`; each member
is seeded at the first observed time and storage, integrated adaptively
while `obsTime[-1] >= t`, resampled onto the observation grid into
`obsSims[:,i]`, and its raw trajectory appended to `sims`; finally
`csts = ssr(obsSims.T, obsStor)`. -/
def interceptionModel_CF (fuel : Nat) (Pars : List (List ℚ))
    (obsTime obsStor obsPrec obsEvap : List ℚ) (dt0 : ℚ) :
    List (List (ℚ × Option ℚ)) × Except String (NDArr × NDArr) :=
  let A := Pars.map fun r => r.getD 0 0
  let B := Pars.map fun r => r.getD 1 0
  let C := Pars.map fun r => r.getD 2 0
  let D := Pars.map fun r => r.getD 3 0
  let M := obsTime.length
  let t0 := obsTime.headD 0
  let s0 := obsStor.headD 0
  let tEnd := obsTime.getD (M - 1) 0
  let simFor : Nat → List (ℚ × Option ℚ) := fun i =>
    let f := fun t s => interceptionModel t s obsTime obsPrec obsEvap
      (A.getD i 0) (B.getD i 0) (C.getD i 0) (D.getD i 0)
    (t0, some s0) :: adaptLoop f tEnd fuel t0 (some s0) dt0
  let colFor : Nat → List (Option ℚ) := fun i =>
    let simn := simFor i
    obsTime.map fun τ => npInterpO τ (simn.map Prod.fst |>.zip (simn.map Prod.snd))
  let st := cfLoop simFor colFor (List.range (A.length - 1))
      (List.replicate M (List.replicate A.length (some 0))) []
  let csts := ssr (.mat (transposeM st.1)) (.vec (obsStor.map some))
  (st.2, csts)

/-! ## Shared lemmas -/

theorem npTruth_one (b : Bool) : npTruth [b] = .ok b := rfl

/-- The vector right-hand side agrees with the scalar right-hand side
at ensemble width one: the single truth test coincides with the
elementwise conditional. -/
theorem interceptionModelV_one (t : ℚ) (s : Option ℚ) (T Pr E0 : List ℚ)
    (a b c d : ℚ) :
    interceptionModelV t [s] T Pr E0 [a] [b] [c] [d] =
      .ok [interceptionModel t s T Pr E0 a b c d] := by
  unfold interceptionModelV interceptionModel interceptionModelPhys
  simp only [List.map, List.zipWith, List.length]
  rw [npTruth_one]
  cases hgt : ogtQ (omax0 s) (5 * c) <;> rfl

theorem cfLoop_len (simFor : Nat → List (ℚ × Option ℚ))
    (colFor : Nat → List (Option ℚ)) :
    ∀ (l : List Nat) (obsSims : List (List (Option ℚ)))
      (sims : List (List (ℚ × Option ℚ))),
      (cfLoop simFor colFor l obsSims sims).2.length = sims.length + l.length := by
  intro l
  induction l with
  | nil => intro obsSims sims; simp [cfLoop]
  | cons i is ih =>
      intro obsSims sims
      rw [cfLoop, ih]
      simp
      omega

theorem bLen_self (n : Nat) : bLen n n = some n := by simp [bLen]

theorem expandList_self {m : Nat} {l : List (Option ℚ)} (h : l.length = m) :
    expandList m l = l := by
  unfold expandList
  by_cases h1 : l.length = 1
  · obtain ⟨a, rfl⟩ := List.length_eq_one.mp h1
    simp at h
    subst h
    rfl
  · simp [h1]

theorem expandRows_self (A : List (List (Option ℚ))) :
    expandRows A.length A = A := by
  unfold expandRows
  by_cases h1 : A.length = 1
  · obtain ⟨r, rfl⟩ := List.length_eq_one.mp h1
    rfl
  · simp [h1]

theorem matCols_matQ (x : List (List ℚ)) :
    matCols (x.map fun r => r.map some) = rowLen x := by
  cases x <;> simp [matCols, rowLen]

theorem zipWith_osub_expand {m : Nat} :
    ∀ (X Y : List (List (Option ℚ))),
      (∀ r ∈ X, r.length = m) → (∀ r ∈ Y, r.length = m) →
      List.zipWith (fun r s => List.zipWith osub (expandList m r) (expandList m s)) X Y
        = List.zipWith (fun r s => List.zipWith osub r s) X Y := by
  intro X
  induction X with
  | nil => intro Y _ _; simp
  | cons r X ih =>
      intro Y hX hY
      cases Y with
      | nil => simp
      | cons s Y =>
          simp only [List.zipWith]
          rw [expandList_self (hX r (by simp)), expandList_self (hY s (by simp)),
            ih Y (fun r hr => hX r (by simp [hr])) (fun s hs => hY s (by simp [hs]))]

/-- Under rectangularity and matching shapes, the broadcast subtraction
of two rank-two arrays is the plain elementwise subtraction. -/
theorem subMM_rect {m : Nat} (X Y : List (List (Option ℚ)))
    (hX : ∀ r ∈ X, r.length = m) (hY : ∀ r ∈ Y, r.length = m)
    (hcX : matCols X = m) (hcY : matCols Y = m) (hlen : X.length = Y.length) :
    subMM X Y = .ok (List.zipWith (fun r s => List.zipWith osub r s) X Y) := by
  unfold subMM
  rw [hcX, hcY, hlen, bLen_self, bLen_self]
  show Except.ok (List.zipWith (fun r s => List.zipWith osub (expandList m r) (expandList m s))
    (expandRows Y.length X) (expandRows Y.length Y)) = _
  rw [show expandRows Y.length X = X from hlen ▸ expandRows_self X,
    expandRows_self Y, zipWith_osub_expand X Y hX hY]

@[simp] theorem except_bind_ok {ε α β : Type} (a : α) (f : α → Except ε β) :
    (Except.ok a : Except ε α) >>= f = f a := rfl

@[simp] theorem except_bind_error {ε α β : Type} (e : ε) (f : α → Except ε β) :
    (Except.error e : Except ε α) >>= f = Except.error e := rfl

/-- Rectangular rows of a finite matrix embedding. -/
theorem matQ_rows_len {x : List (List ℚ)} (hx : Rect x) :
    ∀ r ∈ x.map fun r => r.map some, r.length = rowLen x := by
  intro r hr
  obtain ⟨r0, hr0, rfl⟩ := List.mem_map.mp hr
  simp [hx r0 hr0]

/-- The computed form of `ssr` on two finite, rectangular,
equal-shaped matrices. -/
theorem ssr_matQ_eq (x y : List (List ℚ)) (hx : Rect x) (hy : Rect y)
    (hlen : x.length = y.length) (hcols : rowLen x = rowLen y) :
    ssr (matQ x) (matQ y) =
      .ok (.mat (List.zipWith (fun r s => List.zipWith osub r s)
            (x.map fun r => r.map some) (y.map fun r => r.map some)),
        .vec ((List.zipWith (fun r s => List.zipWith osub r s)
            (x.map fun r => r.map some) (y.map fun r => r.map some)).map
          fun r => (r.map fun v => omul v v).foldl oadd (some 0))) := by
  have hsub := subMM_rect (m := rowLen x)
    (x.map fun r => r.map some) (y.map fun r => r.map some)
    (matQ_rows_len hx) (by rw [hcols]; exact matQ_rows_len hy)
    (matCols_matQ x) (by rw [matCols_matQ y, hcols]) (by simp [hlen])
  show (ndSub (matQ x) (matQ y)) >>= _ = _
  rw [show ndSub (matQ x) (matQ y) = .mat <$> subMM (x.map fun r => r.map some)
      (y.map fun r => r.map some) from rfl, hsub]
  simp only [Except.map_ok, except_bind_ok]
  show (sumAxis1 (ndSquare _)) >>= _ = _
  rw [show ∀ A, sumAxis1 (ndSquare (NDArr.mat A)) =
      .ok (.vec (A.map fun r => (r.map fun v => omul v v).foldl oadd (some 0)))
    from fun A => by simp [ndSquare, sumAxis1, List.map_map]]
  rfl

theorem zipWith_osub_self : ∀ r : List ℚ,
    List.zipWith osub (r.map some) (r.map some) = r.map fun _ => some (0 : ℚ) := by
  intro r
  induction r with
  | nil => rfl
  | cons a r ih =>
      simp only [List.map, List.zipWith, osub_some, sub_self]
      rw [ih]

theorem foldl_oadd_zeros {α : Type} : ∀ (r : List α) (q : ℚ),
    ((r.map fun _ => some (0 : ℚ)).foldl oadd (some q)) = some q := by
  intro r
  induction r with
  | nil => intro q; rfl
  | cons a r ih => intro q; simpa using ih q

theorem rowSSR_symm : ∀ (r t : List ℚ) (q : ℚ),
    ((List.zipWith osub (r.map some) (t.map some)).map fun v => omul v v).foldl
        oadd (some q)
      = ((List.zipWith osub (t.map some) (r.map some)).map fun v => omul v v).foldl
        oadd (some q) := by
  intro r
  induction r with
  | nil => intro t q; cases t <;> rfl
  | cons a r ih =>
      intro t q
      cases t with
      | nil => rfl
      | cons b t =>
          simp only [List.map, List.zipWith, osub_some, omul_some, oadd_some]
          rw [show (a - b) * (a - b) = (b - a) * (b - a) from by ring]
          exact ih t (q + (b - a) * (b - a))

theorem matSSR_symm : ∀ (x y : List (List ℚ)),
    ((List.zipWith (fun r s => List.zipWith osub r s)
        (x.map fun r => r.map some) (y.map fun r => r.map some)).map
      fun r => (r.map fun v => omul v v).foldl oadd (some 0))
    = ((List.zipWith (fun r s => List.zipWith osub r s)
        (y.map fun r => r.map some) (x.map fun r => r.map some)).map
      fun r => (r.map fun v => omul v v).foldl oadd (some 0)) := by
  intro x
  induction x with
  | nil => intro y; cases y <;> rfl
  | cons r x ih =>
      intro y
      cases y with
      | nil => rfl
      | cons s y =>
          simp only [List.map, List.zipWith]
          rw [rowSSR_symm r s 0, ih y]

theorem ssr_self_mat : ∀ x : List (List ℚ),
    List.zipWith (fun r s => List.zipWith osub r s)
        (x.map fun r => r.map some) (x.map fun r => r.map some)
      = x.map fun r => r.map fun _ => some (0 : ℚ) := by
  intro x
  induction x with
  | nil => rfl
  | cons r x ih =>
      simp only [List.map, List.zipWith]
      rw [zipWith_osub_self, ih]

theorem ssr_self_rows : ∀ x : List (List ℚ),
    ((x.map fun r => r.map fun _ => some (0 : ℚ)).map
        fun r => (r.map fun v => omul v v).foldl oadd (some 0))
      = List.replicate x.length (some 0) := by
  intro x
  induction x with
  | nil => rfl
  | cons r x ih =>
      simp only [List.map, List.map_map]
      rw [show ((fun v => omul v v) ∘ fun _ : ℚ => some (0 : ℚ))
          = fun _ : ℚ => some (0 : ℚ) from by
        funext v; simp]
      rw [foldl_oadd_zeros]
      simp only [List.replicate]
      rw [← ih]
      simp [List.map_map]

theorem zipWith_rows_len {m : Nat} :
    ∀ (X Y : List (List (Option ℚ))),
      (∀ r ∈ X, r.length = m) → (∀ r ∈ Y, r.length = m) →
      ∀ r ∈ List.zipWith (fun r s => List.zipWith osub r s) X Y, r.length = m := by
  intro X
  induction X with
  | nil => intro Y _ _ r hr; simp at hr
  | cons a X ih =>
      intro Y hX hY r hr
      cases Y with
      | nil => simp at hr
      | cons b Y =>
          simp only [List.zipWith, List.mem_cons] at hr
          rcases hr with rfl | hr
          · rw [List.length_zipWith, hX a (by simp), hY b (by simp)]
            exact Nat.min_self m
          · exact ih Y (fun r hr => hX r (by simp [hr]))
              (fun s hs => hY s (by simp [hs])) r hr

theorem subMM_cols_mismatch (A B : List (List (Option ℚ)))
    (h : bLen (matCols A) (matCols B) = none) : subMM A B = .error bcastErr := by
  unfold subMM
  rw [h]
  cases bLen A.length B.length <;> rfl

instance RectDec (A : List (List ℚ)) : Decidable (Rect A) :=
  inferInstanceAs (Decidable (∀ r ∈ A, r.length = rowLen A))

theorem getD_mem_of_lt {l : List ℚ} {i : Nat} (h : i < l.length) (d : ℚ) :
    l.getD i d ∈ l := by
  rw [List.getD_eq_getElem?_getD, List.getElem?_eq_getElem h]
  exact List.getElem_mem h

/-- Interpolation at an existing node of a strictly increasing grid is
exact, for the possibly non-finite resampler instantiation applied to
finite trajectory values. -/
theorem npInterpO_node : ∀ (ts ss : List ℚ), List.Sorted (· < ·) ts →
    ss.length = ts.length → ∀ i, i < ts.length →
    npInterpO (ts.getD i 0) (ts.zip (ss.map some)) = some (ss.getD i 0) := by
  intro ts
  induction ts with
  | nil => intro ss _ _ i hi; simp at hi
  | cons t1 tr ih =>
      intro ss hsort hlen i hi
      cases ss with
      | nil => simp at hlen
      | cons s1 sr =>
          simp only [List.length_cons] at hlen
          cases i with
          | zero =>
              simp only [List.getD_cons_zero, List.map, List.zip_cons_cons]
              cases htz : tr.zip (sr.map some) with
              | nil => rfl
              | cons q qs => simp [npInterpO]
          | succ j =>
              cases tr with
              | nil => simp at hi
              | cons t2 tr2 =>
                  cases sr with
                  | nil => simp at hlen
                  | cons s2 sr2 =>
                      simp only [List.length_cons] at hi hlen
                      have hsort2 := (List.sorted_cons.mp hsort).2
                      have hmem1 := (List.sorted_cons.mp hsort).1
                      simp only [List.getD_cons_succ, List.map, List.zip_cons_cons]
                      cases j with
                      | zero =>
                          have h12 : t1 < t2 := hmem1 t2 (by simp)
                          simp only [List.getD_cons_zero]
                          rw [npInterpO]
                          rw [if_neg (by exact not_le.mpr h12), if_pos le_rfl]
                          have hne : t2 - t1 ≠ 0 := sub_ne_zero.mpr (ne_of_gt h12)
                          simp only [osub_some, omul_some, oadd_some]
                          rw [div_self hne]
                          norm_num
                      | succ k =>
                          have hk : k < tr2.length := by omega
                          have hmem : (t2 :: tr2).getD (k + 1) 0 ∈ t2 :: tr2 :=
                            getD_mem_of_lt (by simp only [List.length_cons]; omega) 0
                          have ht1lt : t1 < (t2 :: tr2).getD (k + 1) 0 :=
                            hmem1 _ hmem
                          have ht2lt : t2 < tr2.getD k 0 :=
                            (List.sorted_cons.mp hsort2).1 _ (getD_mem_of_lt hk 0)
                          simp only [List.getD_cons_succ] at ht1lt ⊢
                          rw [npInterpO]
                          rw [if_neg (by exact not_le.mpr ht1lt),
                            if_neg (by exact not_le.mpr ht2lt)]
                          have := ih (s2 :: sr2) hsort2
                            (by simp only [List.length_cons]; omega) (k + 1)
                            (by simp only [List.length_cons]; omega)
                          simpa using this

/-- Within a segment of a strictly increasing grid, `npInterp` is the
linear interpolation formula of that segment. -/
theorem npInterp_segment (t : ℚ) : ∀ (ts vs : List ℚ),
    List.Sorted (· < ·) ts → vs.length = ts.length → ∀ i, i + 1 < ts.length →
    ts.getD i 0 ≤ t → t ≤ ts.getD (i + 1) 0 →
    npInterp t (ts.zip vs) = vs.getD i 0
      + (vs.getD (i + 1) 0 - vs.getD i 0) * (t - ts.getD i 0)
        / (ts.getD (i + 1) 0 - ts.getD i 0) := by
  intro ts
  induction ts with
  | nil => intro vs _ _ i hi; simp at hi
  | cons t1 tr ih =>
      intro vs hsort hlen i hi h1 h2
      cases vs with
      | nil => simp at hlen
      | cons v1 vr =>
          simp only [List.length_cons] at hlen hi
          cases tr with
          | nil => simp only [List.length_cons, List.length_nil] at hi; omega
          | cons t2 tr2 =>
              cases vr with
              | nil => simp at hlen
              | cons v2 vr2 =>
                  simp only [List.length_cons] at hlen hi
                  have hsort2 := (List.sorted_cons.mp hsort).2
                  have hmem1 := (List.sorted_cons.mp hsort).1
                  have h12 : t1 < t2 := hmem1 t2 (by simp)
                  cases i with
                  | zero =>
                      simp only [List.getD_cons_zero, List.getD_cons_succ] at h1 h2 ⊢
                      simp only [List.zip_cons_cons]
                      by_cases hle : t ≤ t1
                      · have ht : t = t1 := le_antisymm hle h1
                        subst ht
                        rw [npInterp, if_pos le_rfl]
                        simp
                      · rw [npInterp, if_neg hle, if_pos h2]
                  | succ j =>
                      simp only [List.getD_cons_succ] at h1 h2 ⊢
                      simp only [List.zip_cons_cons]
                      have hjlen : j < (t2 :: tr2).length := by
                        simp only [List.length_cons]; omega
                      have ht2le : t2 ≤ (t2 :: tr2).getD j 0 := by
                        cases j with
                        | zero => simp
                        | succ k =>
                            have hk : k < tr2.length := by omega
                            exact le_of_lt ((List.sorted_cons.mp hsort2).1 _
                              (by simpa using getD_mem_of_lt hk 0))
                      have ht1lt : t1 < t :=
                        lt_of_lt_of_le (lt_of_lt_of_le h12 ht2le) h1
                      by_cases hle2 : t ≤ t2
                      · -- forced to the shared node `t = t2`, only possible at `j = 0`
                        cases j with
                        | zero =>
                            simp only [List.getD_cons_zero] at h1
                            have ht : t = t2 := le_antisymm hle2 h1
                            rw [npInterp, if_neg (not_le.mpr ht1lt), if_pos hle2]
                            have hne : t2 - t1 ≠ 0 := sub_ne_zero.mpr (ne_of_gt h12)
                            simp only [List.getD_cons_zero, List.getD_cons_succ]
                            rw [ht, sub_self, mul_zero, zero_div, add_zero,
                              mul_div_assoc, div_self hne]
                            ring
                        | succ k =>
                            exfalso
                            have hk : k < tr2.length := by omega
                            have : t2 < tr2.getD k 0 :=
                              (List.sorted_cons.mp hsort2).1 _ (getD_mem_of_lt hk 0)
                            simp only [List.getD_cons_succ] at h1
                            exact absurd (le_trans h1 hle2) (not_le.mpr this)
                      · rw [npInterp, if_neg (not_le.mpr ht1lt), if_neg hle2]
                        exact ih (v2 :: vr2) hsort2
                          (by simp only [List.length_cons]; omega) j
                          (by simp only [List.length_cons]; omega) h1 h2

@[simp] theorem vadd_one (x y : Option ℚ) : vadd [x] [y] = [oadd x y] := rfl

@[simp] theorem vscale_one (q : ℚ) (x : Option ℚ) :
    vscale q [x] = [omul (some q) x] := rfl

@[simp] theorem except_pure {ε α : Type} (a : α) :
    (pure a : Except ε α) = Except.ok a := rfl

/-- One RK4 step at ensemble width one succeeds whenever the model
function does, and keeps the width. -/
theorem rk4_one (f : ℚ → List (Option ℚ) → Except String (List (Option ℚ)))
    (g : ℚ → Option ℚ → Option ℚ) (hf : ∀ τ σ, f τ [σ] = .ok [g τ σ])
    (t dt : ℚ) (s : Option ℚ) : ∃ v, rk4 t [s] dt f = .ok [v] := by
  apply Exists.intro
  unfold rk4
  simp only [hf, except_bind_ok, vadd_one, vscale_one, except_pure]
  rfl

/-- The fixed-step row loop at ensemble width one: it succeeds, yields
one row per remaining time plus the seed row, every row has width one,
and consecutive rows are related by exactly one RK4 step. -/
theorem rk4Scan_one (f : ℚ → List (Option ℚ) → Except String (List (Option ℚ)))
    (g : ℚ → Option ℚ → Option ℚ) (hf : ∀ τ σ, f τ [σ] = .ok [g τ σ]) (dt : ℚ) :
    ∀ (ts : List ℚ) (s : Option ℚ), ∃ rows,
      rk4Scan f dt [s] ts = .ok rows ∧
      rows.length = ts.length + 1 ∧
      rows.headD [] = [s] ∧
      (∀ r ∈ rows, r.length = 1) ∧
      (∀ i, i + 1 < rows.length →
        rk4 (ts.getD i 0) (rows.getD i []) dt f = .ok (rows.getD (i + 1) [])) := by
  intro ts
  induction ts with
  | nil =>
      intro s
      refine ⟨[[s]], rfl, rfl, rfl, ?_, ?_⟩
      · intro r hr; simp at hr; simp [hr]
      · intro i hi; simp at hi
  | cons t tr ih =>
      intro s
      obtain ⟨v, hv⟩ := rk4_one f g hf t dt s
      obtain ⟨rows, hrows, hlen, hhead, hone, hstep⟩ := ih v
      have hne : rows ≠ [] := by
        intro h; rw [h] at hlen; simp at hlen
      refine ⟨[s] :: rows, ?_, by simp [hlen], rfl, ?_, ?_⟩
      · show (rk4 t [s] dt f) >>= _ = _
        rw [hv, except_bind_ok, hrows, except_bind_ok, except_pure]
      · intro r hr
        rcases List.mem_cons.mp hr with rfl | hr
        · rfl
        · exact hone r hr
      · intro i hi
        cases i with
        | zero =>
            simp only [List.getD_cons_zero, List.getD_cons_succ]
            cases rows with
            | nil => exact absurd rfl hne
            | cons r0 rest =>
                simp only [List.headD_cons] at hhead
                rw [hhead]
                exact hv
        | succ j =>
            simp only [List.getD_cons_succ]
            exact hstep j (by simpa using hi)

theorem getD_dropLast {l : List ℚ} {i : Nat} (h : i + 1 < l.length) :
    l.dropLast.getD i 0 = l.getD i 0 := by
  have h1 : i < l.dropLast.length := by
    rw [List.length_dropLast]; omega
  have h2 : i < l.length := by omega
  rw [List.getD_eq_getElem?_getD, List.getD_eq_getElem?_getD,
    List.getElem?_eq_getElem h1, List.getElem?_eq_getElem h2]
  simp [List.getElem_dropLast]

/-- Transpose of a matrix all of whose rows have width one. -/
theorem transposeM_one (rows : List (List (Option ℚ))) (h : matCols rows = 1) :
    transposeM rows = [rows.map fun r => r.getD 0 none] := by
  unfold transposeM
  rw [h]
  simp [List.range_succ]

/-- The computed form of the fixed-step driver at ensemble width one,
given the result of the row loop. -/
theorem interceptCostRK4_eq (p : List ℚ)
    (obsTime obsStor obsPrec obsEvap : List ℚ) (dt : ℚ)
    (rows : List (List (Option ℚ)))
    (hrows : rk4Scan (fun τ S => interceptionModelV τ S obsTime obsPrec obsEvap
        [p.getD 0 0] [p.getD 1 0] [p.getD 2 0] [p.getD 3 0]) dt
      [some (obsStor.headD 0)] obsTime.dropLast = .ok rows)
    (hhead : rows.headD [] = [some (obsStor.headD 0)])
    (hrlen : rows.length = obsTime.length)
    (hobs : obsStor.length = obsTime.length) :
    interceptCostRK4 [p] obsTime obsStor obsPrec obsEvap dt =
      .ok (transposeM rows,
        (.mat [List.zipWith osub (rows.map fun r => r.getD 0 none)
            (obsStor.map some)],
         .vec [((List.zipWith osub (rows.map fun r => r.getD 0 none)
            (obsStor.map some)).map fun v => omul v v).foldl oadd (some 0)])) := by
  have hcols : matCols rows = 1 := by
    unfold matCols
    rw [hhead]
    rfl
  have hcollen : (rows.map fun r => r.getD 0 none).length = obsTime.length := by
    simpa using hrlen
  have hsub := subMM_rect (m := obsTime.length)
    [rows.map fun r => r.getD 0 none] [obsStor.map some]
    (by intro r hr; simp at hr; rw [hr]; simpa using hcollen)
    (by intro r hr; simp at hr; rw [hr]; simpa using hobs)
    (by simpa [matCols] using hcollen)
    (by simpa [matCols] using hobs)
    rfl
  unfold interceptCostRK4
  simp only [List.map, List.length_cons, List.length_nil, List.replicate]
  rw [hrows, except_bind_ok]
  rw [show ssr (.mat (transposeM rows)) (.vec (obsStor.map some)) =
      .ok (.mat [List.zipWith osub (rows.map fun r => r.getD 0 none)
          (obsStor.map some)],
        .vec [((List.zipWith osub (rows.map fun r => r.getD 0 none)
          (obsStor.map some)).map fun v => omul v v).foldl oadd (some 0)])
    from ?_]
  · rfl
  · show (ndSub (.mat (transposeM rows)) (.vec (obsStor.map some))) >>= _ = _
    rw [transposeM_one rows hcols]
    rw [show ndSub (.mat [rows.map fun r => r.getD 0 none])
        (.vec (obsStor.map some))
      = .mat <$> subMM [rows.map fun r => r.getD 0 none] [obsStor.map some]
      from rfl]
    rw [hsub]
    rfl

/-! ## Claim theorems -/

/-- C8: for a query time inside a segment of the strictly increasing
forcing grid, the forcing value fed into the dynamics is the linear
interpolation of the recorded series on that segment, floored at zero;
in particular it is always non-negative. -/
theorem forcing_interpolation_clamped (T V : List ℚ) (t : ℚ)
    (hs : List.Sorted (· < ·) T) (hlen : V.length = T.length) (i : Nat)
    (hi : i + 1 < T.length) (h1 : T.getD i 0 ≤ t) (h2 : t ≤ T.getD (i + 1) 0) :
    forcingAt t T V =
      max (V.getD i 0 + (V.getD (i + 1) 0 - V.getD i 0) * (t - T.getD i 0)
        / (T.getD (i + 1) 0 - T.getD i 0)) 0
    ∧ 0 ≤ forcingAt t T V := by
  constructor
  · unfold forcingAt
    rw [npInterp_segment t T V hs hlen i hi h1 h2]
  · exact le_max_right _ _

/-- C8 witness: the midpoint of the segment `[0, 2]` with forcing
values `4` and `8`. -/
theorem forcing_interpolation_clamped_witness :
    forcingAt 1 [0, 2] [4, 8] =
      max ((4 : ℚ) + (8 - 4) * (1 - 0) / (2 - 0)) 0 ∧
    (0 : ℚ) ≤ forcingAt 1 [0, 2] [4, 8] :=
  forcing_interpolation_clamped [0, 2] [4, 8] 1
    (by simp [List.sorted_cons]) rfl 0 (by norm_num)
    (by norm_num) (by norm_num)

/-- C9: resampling is exact at existing nodes — interpolating a
trajectory with strictly increasing times onto one of its own original
time points returns the original storage value exactly. -/
theorem resample_roundtrip_exact (ts ss : List ℚ)
    (hs : List.Sorted (· < ·) ts) (hlen : ss.length = ts.length)
    (i : Nat) (hi : i < ts.length) :
    npInterpO (ts.getD i 0) (ts.zip (ss.map some)) = some (ss.getD i 0) :=
  npInterpO_node ts ss hs hlen i hi

/-- C9 witness: an interior node of a three-point trajectory. -/
theorem resample_roundtrip_exact_witness :
    npInterpO (([0, 1, 3] : List ℚ).getD 1 0)
      (([0, 1, 3] : List ℚ).zip (([5, 7, 6] : List ℚ).map some))
      = some (([5, 7, 6] : List ℚ).getD 1 0) :=
  resample_roundtrip_exact [0, 1, 3] [5, 7, 6]
    (by simp [List.sorted_cons]) rfl 1 (by norm_num)


/-- C1: the adaptive-path ensemble driver does NOT process every
ensemble member: the member loop runs over `range(A.size - 1)`, so for
every fuel, parameter ensemble and observation data the list of raw
trajectories it returns has `N - 1` entries, one fewer than the
ensemble size `N` (the claim asserts exactly `N`). -/
theorem cf_sims_count (fuel : Nat) (Pars : List (List ℚ))
    (obsTime obsStor obsPrec obsEvap : List ℚ) (dt0 : ℚ) :
    (interceptionModel_CF fuel Pars obsTime obsStor obsPrec obsEvap dt0).1.length
      = Pars.length - 1 := by
  unfold interceptionModel_CF
  rw [cfLoop_len]
  simp

/-- C2 counterexample: at ensemble width two the drainage conditional
is not evaluated elementwise — the scalar truth test on the
two-element comparison vector raises the numpy ambiguity error, so the
right-hand side produces no components at all. -/
theorem drainage_vector_counterexample :
    interceptionModelV 0 [some 1, some 1] [0, 1] [0, 0] [1, 1]
        [0, 0] [0, 0] [1, 1] [1, 1] = .error truthErr := rfl

/-- C2 (amended): at scalar state the drainage term equals
drainage-rate times `(S - capacity)` exactly when the clamped storage
exceeds the capacity and is zero otherwise; and at ensemble width one
the vector conditional coincides with that scalar conditional.  For
width at least two the truth test raises instead (see the
counterexample). -/
theorem drainage_conditional_amended :
    (∀ (t S : ℚ) (T Pr E0 : List ℚ) (a b c d : ℚ), c ≠ 0 →
      interceptionModel t (some S) T Pr E0 a b c d =
        some (a * forcingAt t T Pr
          - (if 5 * c < max S 0 then (999 * b + 1) * (max S 0 - 5 * c) else 0)
          - 3 * d * forcingAt t T E0 * (max S 0 / (5 * c))))
  ∧ (∀ (t : ℚ) (s : Option ℚ) (T Pr E0 : List ℚ) (a b c d : ℚ),
      interceptionModelV t [s] T Pr E0 [a] [b] [c] [d] =
        .ok [interceptionModel t s T Pr E0 a b c d]) := by
  constructor
  · intro t S T Pr E0 a b c d hc
    unfold interceptionModel interceptionModelPhys
    have h5 : (5 : ℚ) * c ≠ 0 := mul_ne_zero (by norm_num) hc
    by_cases hgt : 5 * c < max S 0 <;>
      simp [hgt, h5, odiv, omax0]
  · intro t s T Pr E0 a b c d
    exact interceptionModelV_one t s T Pr E0 a b c d

/-- C2 witness: a concrete scalar evaluation in the drainage regime. -/
theorem drainage_conditional_witness :
    interceptionModel 0 (some 6) [0] [0] [0] 0 0 1 0 =
      some (0 * forcingAt 0 [0] [0]
        - (if 5 * 1 < max (6 : ℚ) 0 then (999 * 0 + 1) * (max (6 : ℚ) 0 - 5 * 1) else 0)
        - 3 * 0 * forcingAt 0 [0] [0] * (max (6 : ℚ) 0 / (5 * 1))) :=
  drainage_conditional_amended.1 0 6 [0] [0] [0] 0 0 1 0 (by norm_num)

/-- C3 counterexample: with raw capacity parameter `c = 0` the
right-hand side does not raise a domain error: it returns an ordinary
value — the non-finite result of the division `S / capacity` — as
`Except.ok`. -/
theorem zero_capacity_counterexample :
    interceptionModelV 0 [some 1] [0, 1] [0, 0] [1, 1] [0] [0] [0] [1]
      = .ok [none] := by
  norm_num [interceptionModelV, interceptionModelPhys, forcingAt, npInterp,
    npTruth, omax0, ogtQ, odiv, omul, osub, oadd, List.zipWith]

/-- C3 (amended): for every input with raw capacity parameter `c = 0`
the scalar right-hand side performs the division by the zero capacity
and yields a non-finite value (`inf`/`nan`, modelled by `none`) that
propagates as a value; no domain error is signalled. -/
theorem zero_capacity_divides (t : ℚ) (S : Option ℚ) (T Pr E0 : List ℚ)
    (a b d : ℚ) : interceptionModel t S T Pr E0 a b 0 d = none := by
  unfold interceptionModel interceptionModelPhys
  cases S with
  | none => simp [omax0, odiv]
  | some s => simp [omax0, odiv]

/-- C4 counterexample: with two ensemble members the fixed-step driver
raises on the first RK4 step (the scalar truth test on the
two-member comparison vector in the right-hand side), so it returns no
trajectory matrix and no SSR vector at all. -/
theorem rk4_driver_multimember_counterexample :
    interceptCostRK4 [[0, 0, 1, 0], [0, 0, 1, 0]] [0, 1] [0, 0] [0, 0] [0, 0] 1
      = .error truthErr := rfl

/-- C4 (amended): for a SINGLE-member ensemble the fixed-step driver
run satisfies the claimed invariants: the trajectory is seeded with the
first observed storage, there are as many rows as observation times
(one RK4 step per observation interval, consecutive rows related by
exactly one step at the left grid time, hence the simulated grid is
the observation grid and nothing is resampled), and the returned SSR
vector has one entry per member.  For two or more members the driver
raises instead (see the counterexample). -/
theorem rk4_driver_invariants (p : List ℚ)
    (obsTime obsStor obsPrec obsEvap : List ℚ) (dt : ℚ)
    (hM : 1 ≤ obsTime.length) (hobs : obsStor.length = obsTime.length) :
    ∃ rows ssrv,
      rk4Scan (fun τ S => interceptionModelV τ S obsTime obsPrec obsEvap
          [p.getD 0 0] [p.getD 1 0] [p.getD 2 0] [p.getD 3 0]) dt
        [some (obsStor.headD 0)] obsTime.dropLast = .ok rows ∧
      interceptCostRK4 [p] obsTime obsStor obsPrec obsEvap dt
        = .ok (transposeM rows,
          (.mat [List.zipWith osub (rows.map fun r => r.getD 0 none)
              (obsStor.map some)], .vec ssrv)) ∧
      rows.headD [] = [some (obsStor.headD 0)] ∧
      rows.length = obsTime.length ∧
      (∀ i, i + 1 < rows.length →
        rk4 (obsTime.getD i 0) (rows.getD i []) dt
          (fun τ S => interceptionModelV τ S obsTime obsPrec obsEvap
            [p.getD 0 0] [p.getD 1 0] [p.getD 2 0] [p.getD 3 0])
          = .ok (rows.getD (i + 1) [])) ∧
      ssrv.length = 1 := by
  obtain ⟨rows, hrows, hlen, hhead, hone, hstep⟩ :=
    rk4Scan_one
      (fun τ S => interceptionModelV τ S obsTime obsPrec obsEvap
        [p.getD 0 0] [p.getD 1 0] [p.getD 2 0] [p.getD 3 0])
      (fun τ σ => interceptionModel τ σ obsTime obsPrec obsEvap
        (p.getD 0 0) (p.getD 1 0) (p.getD 2 0) (p.getD 3 0))
      (fun τ σ => interceptionModelV_one τ σ obsTime obsPrec obsEvap
        (p.getD 0 0) (p.getD 1 0) (p.getD 2 0) (p.getD 3 0))
      dt obsTime.dropLast (some (obsStor.headD 0))
  have hrlen : rows.length = obsTime.length := by
    rw [hlen, List.length_dropLast]
    omega
  refine ⟨rows, _, hrows,
    interceptCostRK4_eq p obsTime obsStor obsPrec obsEvap dt rows hrows hhead
      hrlen hobs, hhead, hrlen, ?_, rfl⟩
  intro i hi
  have hrel := hstep i hi
  rwa [getD_dropLast (show i + 1 < obsTime.length by omega)] at hrel

/-- C4 witness: a concrete single-member run over two observation
times. -/
theorem rk4_driver_invariants_witness :
    ∃ rows ssrv,
      rk4Scan (fun τ S => interceptionModelV τ S [0, 1] [0, 0] [0, 0]
          [0] [0] [1] [0]) 1 [some 0] ([0, 1] : List ℚ).dropLast = .ok rows ∧
      interceptCostRK4 [[0, 0, 1, 0]] [0, 1] [0, 0] [0, 0] [0, 0] 1
        = .ok (transposeM rows,
          (.mat [List.zipWith osub (rows.map fun r => r.getD 0 none)
              (([0, 0] : List ℚ).map some)], .vec ssrv)) ∧
      rows.headD [] = [some 0] ∧
      rows.length = 2 ∧
      (∀ i, i + 1 < rows.length →
        rk4 (([0, 1] : List ℚ).getD i 0) (rows.getD i []) 1
          (fun τ S => interceptionModelV τ S [0, 1] [0, 0] [0, 0]
            [0] [0] [1] [0])
          = .ok (rows.getD (i + 1) [])) ∧
      ssrv.length = 1 :=
  rk4_driver_invariants [0, 0, 1, 0] [0, 1] [0, 0] [0, 0] [0, 0] 1
    (by decide) rfl

/-- C5 counterexample: a simulated matrix with three time points and
an observed vector with one time point disagree on the time axis, yet
`ssr` broadcasts the single observation and returns a result instead
of raising. -/
theorem ssr_broadcast_counterexample :
    ssr (matQ [[1, 2, 3]]) (vecQ [1]) = .ok (matQ [[0, 1, 2]], vecQ [5]) := by
  norm_num [ssr, ndSub, subMM, matQ, vecQ, matCols, rowLen, bLen, expandList,
    expandRows, ndSquare, sumAxis1, List.zipWith, osub, omul, oadd]

/-- C5 (amended): `ssr` fails fast with the broadcast shape error
whenever the simulated matrix and the observed vector disagree on the
time axis AND neither length is one; when either length is one, numpy
broadcasting silently stretches it instead (see the counterexample). -/
theorem ssr_shape_mismatch_error (x : List (List ℚ)) (d : List ℚ)
    (h1 : rowLen x ≠ d.length) (h2 : rowLen x ≠ 1) (h3 : d.length ≠ 1) :
    ssr (matQ x) (vecQ d) = .error bcastErr := by
  show (ndSub (matQ x) (vecQ d)) >>= _ = _
  rw [show ndSub (matQ x) (vecQ d)
      = .mat <$> subMM (x.map fun r => r.map some) [d.map some] from rfl]
  rw [subMM_cols_mismatch _ _ (by
    rw [matCols_matQ, show matCols [d.map some] = d.length from by simp [matCols]]
    simp [bLen, h1, h2, h3])]
  rfl

/-- C5 witness: a concrete non-broadcastable shape mismatch. -/
theorem ssr_shape_mismatch_witness :
    ssr (matQ [[1, 2, 3]]) (vecQ [1, 2]) = .error bcastErr :=
  ssr_shape_mismatch_error [[1, 2, 3]] [1, 2] (by decide) (by decide) (by decide)

/-- C6: the SSR of a rectangular trajectory matrix against itself is
the zero vector, and for equal-shaped matrices the per-member SSR
vector is symmetric under swapping simulated and observed. -/
theorem ssr_self_zero_and_symm :
    (∀ x : List (List ℚ), Rect x →
      ssr (matQ x) (matQ x) =
        .ok (.mat (x.map fun r => r.map fun _ => some 0),
          .vec (List.replicate x.length (some 0))))
  ∧ (∀ x y : List (List ℚ), Rect x → Rect y → x.length = y.length →
      rowLen x = rowLen y →
      ∃ rxy ryx s, ssr (matQ x) (matQ y) = .ok (rxy, s) ∧
        ssr (matQ y) (matQ x) = .ok (ryx, s)) := by
  constructor
  · intro x hx
    rw [ssr_matQ_eq x x hx hx rfl rfl, ssr_self_mat, ssr_self_rows]
  · intro x y hx hy hlen hcols
    have h1 := ssr_matQ_eq x y hx hy hlen hcols
    have h2 := ssr_matQ_eq y x hy hx hlen.symm hcols.symm
    rw [matSSR_symm y x] at h2
    exact ⟨_, _, _, h1, h2⟩

/-- C6 witness: concrete self-SSR and symmetry instances. -/
theorem ssr_self_zero_and_symm_witness :
    (ssr (matQ [[1, 2]]) (matQ [[1, 2]]) =
      .ok (.mat (([[1, 2]] : List (List ℚ)).map fun r => r.map fun _ => some 0),
        .vec (List.replicate ([[1, 2]] : List (List ℚ)).length (some 0))))
  ∧ (∃ rxy ryx s, ssr (matQ [[1, 2]]) (matQ [[3, 5]]) = .ok (rxy, s) ∧
      ssr (matQ [[3, 5]]) (matQ [[1, 2]]) = .ok (ryx, s)) :=
  ⟨ssr_self_zero_and_symm.1 [[1, 2]] (by decide),
   ssr_self_zero_and_symm.2 [[1, 2]] [[3, 5]] (by decide) (by decide) rfl rfl⟩

/-- C7: the dynamics depend on the raw parameters exactly through the
fixed map: interception efficiency `a` unchanged, drainage rate
`999 b + 1`, storage capacity `5 c`, evaporation efficiency `3 d`;
the transform is total. -/
theorem parameter_transform_map (t : ℚ) (S : Option ℚ) (T Pr E0 : List ℚ)
    (a b c d : ℚ) :
    interceptionModel t S T Pr E0 a b c d =
      interceptionModelPhys t S T Pr E0 a (999 * b + 1) (5 * c) (3 * d) := rfl

/-- C10: on equal-shaped rectangular rank-two inputs `ssr` totally
returns a residual matrix of the same shape and one scalar SSR per
row; on rank-one inputs it always fails, because the reduction is over
`axis=1`, which a one-dimensional array does not have. -/
theorem ssr_rank_requirements :
    (∀ x y : List (List ℚ), Rect x → Rect y → x.length = y.length →
        rowLen x = rowLen y →
      ∃ res sv, ssr (matQ x) (matQ y) = .ok (.mat res, .vec sv) ∧
        res.length = x.length ∧ (∀ r ∈ res, r.length = rowLen x) ∧
        sv.length = x.length)
  ∧ (∀ xs ys : List ℚ, ∃ e, ssr (vecQ xs) (vecQ ys) = .error e) := by
  constructor
  · intro x y hx hy hlen hcols
    refine ⟨_, _, ssr_matQ_eq x y hx hy hlen hcols, ?_, ?_, ?_⟩
    · simp [List.length_zipWith, hlen]
    · exact zipWith_rows_len (m := rowLen x) _ _ (matQ_rows_len hx)
        (by rw [hcols]; exact matQ_rows_len hy)
    · simp [List.length_zipWith, hlen]
  · intro xs ys
    show ∃ e, (ndSub (vecQ xs) (vecQ ys)) >>= _ = .error e
    rw [show ndSub (vecQ xs) (vecQ ys)
        = .vec <$> subVV (xs.map some) (ys.map some) from rfl]
    cases h : subVV (xs.map some) (ys.map some) with
    | error e => exact ⟨e, rfl⟩
    | ok l => exact ⟨axisErr, rfl⟩

/-- C10 witness: concrete rank-two success and rank-one failure. -/
theorem ssr_rank_requirements_witness :
    (∃ res sv, ssr (matQ [[1, 2]]) (matQ [[3, 5]]) = .ok (.mat res, .vec sv) ∧
      res.length = 1 ∧ (∀ r ∈ res, r.length = rowLen [[1, 2]]) ∧ sv.length = 1)
  ∧ (∃ e, ssr (vecQ [1]) (vecQ [2]) = .error e) :=
  ⟨ssr_rank_requirements.1 [[1, 2]] [[3, 5]] (by decide) (by decide) rfl rfl,
   ssr_rank_requirements.2 [1] [2]⟩

end Models
